import Mathlib

/-!
Verification development for the GiellaLTGramTools grammar-checker test
harness.  The Python sources are shallowly embedded: strings whose characters
are indexed or sliced become `List Char`, tags and category names that are
only compared for equality stay `String`, Python `int` offsets become `Int`
(`Nat` where the source can only produce lengths), and every function is a
direct transcription of the corresponding Python function.
-/

namespace GLT

/-- Python `str.startswith`, at the character-list level (the library's
`String.startsWith` is opaque to kernel reduction). -/
def strStartsWith (s p : String) : Bool :=
  p.toList.isPrefixOf s.toList

/-- Worker for `strReplace` (Python `str.replace`): replace every
non-overlapping occurrence of `pat`, scanning left to right. -/
def replaceAllGo (pat rep : List Char) : Nat → List Char → List Char
  | 0, cs => cs
  | _ + 1, [] => []
  | fuel + 1, c :: cs =>
    if pat.isPrefixOf (c :: cs) ∧ pat ≠ [] then
      rep ++ replaceAllGo pat rep fuel ((c :: cs).drop pat.length)
    else c :: replaceAllGo pat rep fuel cs

/-- Python `str.replace(pat, rep)`. -/
def strReplace (s pat rep : String) : String :=
  String.mk (replaceAllGo pat.toList rep.toList s.toList.length s.toList)

/-- Take the slice `[a, b)` of a character list, Python `s[a:b]` for
`0 ≤ a ≤ b`. -/
def sliceL (s : List Char) (a b : Nat) : List Char :=
  (s.drop a).take (b - a)

/-- Python `str.replace("\n", " ")` on a character list. -/
def replaceNL (s : List Char) : List Char :=
  s.map (fun c => if c = '\n' then ' ' else c)

/-- First character of a Python string as a string: `s[0]` (empty on ""). -/
def strHead (s : List Char) : List Char := s.take 1

/-- Last character of a Python string as a string: `s[-1]` (empty on ""). -/
def strLast (s : List Char) : List Char := s.drop (s.length - 1)

/-!
## `gramtest.py` — the outcome classifier

A grammar-checker error is the positional 7-tuple
`[text, start, end, error_type, explanation, suggestions, title]`
(`GramTest` indexes errors positionally).  `beg`/`fin` stand for the
`start`/`end` slots; `end` is a Lean keyword.
-/

structure GErr where
  text : List Char
  beg : Int
  fin : Int
  cat : String
  expl : String
  suggs : List (List Char)
  title : String
deriving DecidableEq, Repr

/-- Source: `GramTest.has_same_range_and_error`: on category "double-space-before"
the source compares the slices `c_error[1:2] == d_error[1:2]`, i.e. only the
`start` slot; otherwise `c_error[:3] == d_error[:3]`. -/
def hasSameRangeAndError (c d : GErr) : Bool :=
  if d.cat = "double-space-before" then
    c.beg == d.beg
  else
    c.text == d.text && c.beg == d.beg && c.fin == d.fin

/-- Source: `GramTest.has_suggestions_with_hit`. -/
def hasSuggestionsWithHit (c d : GErr) : Bool :=
  decide (0 < d.suggs.length) && hasSameRangeAndError c d
    && c.suggs.any (fun t => d.suggs.contains t)

/-- Source: `GramTest.has_suggestions_without_hit`. -/
def hasSuggestionsWithoutHit (c d : GErr) : Bool :=
  hasSameRangeAndError c d && !d.suggs.isEmpty
    && !(c.suggs.any (fun t => d.suggs.contains t))

/-- Source: `GramTest.has_no_suggestions`. -/
def hasNoSuggestions (c d : GErr) : Bool :=
  hasSameRangeAndError c d && d.suggs.isEmpty

/-- Source: `GramTest.has_true_positives`: the comprehension
`[(c, d) for c in correct for d in dc if has_suggestions_with_hit(c, d)]`. -/
def hasTruePositives (correct dc : List GErr) : List (GErr × GErr) :=
  correct.flatMap fun c =>
    (dc.filter (fun d => hasSuggestionsWithHit c d)).map fun d => (c, d)

/-- Source: `GramTest.has_false_positives_1`. -/
def hasFalsePositives1 (correct dc : List GErr) : List (GErr × GErr) :=
  correct.flatMap fun c =>
    (dc.filter (fun d => hasSuggestionsWithoutHit c d)).map fun d => (c, d)

/-- Source: `GramTest.has_false_positives_2`: reported errors matching no expected
error. -/
def hasFalsePositives2 (correct dc : List GErr) : List GErr :=
  dc.filter fun d => !(correct.any fun c => hasSameRangeAndError c d)

/-- Source: `GramTest.has_false_negatives_1`. -/
def hasFalseNegatives1 (correct dc : List GErr) : List (GErr × GErr) :=
  correct.flatMap fun c =>
    (dc.filter (fun d => hasNoSuggestions c d)).map fun d => (c, d)

/-- Source: `GramTest.has_false_negatives_2`: expected errors matching no reported
error (the `for … else` loop collects exactly these). -/
def hasFalseNegatives2 (cErrors dErrors : List GErr) : List GErr :=
  cErrors.filter fun c => !(dErrors.any fun d => hasSameRangeAndError c d)

/-- Source: `GramTest.has_true_negatives`: the sentence-level special case. -/
def hasTrueNegatives (correct dc : List GErr) : List (GErr × GErr) :=
  if correct.isEmpty && dc.isEmpty then
    [(⟨[], 0, 0, "", "", [], ""⟩, ⟨[], 0, 0, "", "", [], ""⟩)]
  else []

/-!
## `gramchecker.py` — span-reconciliation fixups on the 7-tuple shape
-/

/-- The three directional aistton categories. -/
def isAisttonCat (c : String) : Bool :=
  c = "punct-aistton-both" || c = "punct-aistton-left" || c = "punct-aistton-right"

/-- The ranges of aistton errors, `aistton_ranges` in
`GramChecker.fix_hidden_by_aistton`. -/
def aisttonRanges (ds : List GErr) : List (Int × Int) :=
  (ds.filter fun e => isAisttonCat e.cat).map fun e => (e.beg, e.fin)

/-- Source: `is_hidden_error` inside `GramChecker.fix_hidden_by_aistton`. -/
def isHiddenError (ranges : List (Int × Int)) (e : GErr) : Bool :=
  ranges.contains (e.beg, e.fin) && !(isAisttonCat e.cat)

/-- Source: `fix_hidden_error` inside `GramChecker.fix_hidden_by_aistton`.  Note that
it dispatches on the hidden error's own `error[3]` category. -/
def fixHiddenError (e : GErr) : GErr :=
  if e.cat = "punct-aistton-left" then
    { e with
      text := e.text.drop 1
      beg := e.beg + 1
      suggs := e.suggs.map fun s => s.drop 1 }
  else if e.cat = "punct-aistton-right" then
    { e with
      text := e.text.dropLast
      fin := e.fin - 1
      suggs := e.suggs.map fun s => s.dropLast }
  else
    { e with
      text := (e.text.drop 1).dropLast
      beg := e.beg + 1
      fin := e.fin - 1
      suggs := e.suggs.map fun s => (s.drop 1).dropLast }

/-- Source: `GramChecker.fix_hidden_by_aistton`. -/
def fixHiddenByAistton (ds : List GErr) : List GErr :=
  ds.map fun e => if isHiddenError (aisttonRanges ds) e then fixHiddenError e else e

/-- The per-error body of the loop in `GramChecker.fix_aistton`: a
"punct-aistton" error yields nothing, a "punct-aistton-both" error yields the
two single-character endpoint spans with the hard-coded suggestion `["”"]`,
the "-left"/"-right" errors yield one endpoint span each, anything else is
passed through. -/
def aisttonYield (e : GErr) : List GErr :=
  if e.cat = "punct-aistton" then []
  else if e.cat = "punct-aistton-both" then
    [ ⟨strHead e.text, e.beg, e.beg + 1, e.cat, e.expl, [['”']], e.title⟩,
      ⟨strLast e.text, e.fin - 1, e.fin, e.cat, e.expl, [['”']], e.title⟩ ]
  else if e.cat = "punct-aistton-left" then
    [ ⟨strHead e.text, e.beg, e.beg + 1, e.cat, e.expl, [['”']], e.title⟩ ]
  else if e.cat = "punct-aistton-right" then
    [ ⟨strLast e.text, e.fin - 1, e.fin, e.cat, e.expl, [['”']], e.title⟩ ]
  else [e]

/-- Source: `GramChecker.fix_aistton`: runs `fix_hidden_by_aistton` first, then
yields per error. -/
def fixAistton (ds : List GErr) : List GErr :=
  (fixHiddenByAistton ds).flatMap aisttonYield

/-- First index of `e` in `errors` (Python `list.index`, total here because
it is only called on members). -/
def idxOf : List GErr → GErr → Nat
  | [], _ => 0
  | x :: rest, e => if x = e then 0 else idxOf rest e + 1

/-- Inner loop body of `GramChecker._find_duplicate_errors`: `found` is the
set of already-paired errors (the source keys it by `str(error)`, which on
these tuples is injective, so we key by the value itself), `idxs` the index
set to delete. -/
def findDupStep (errors : List GErr) (st : List GErr × List Nat) (e1 : GErr) :
    List GErr × List Nat :=
  errors.foldl
    (fun st e2 =>
      if (e1.text, e1.beg, e1.fin) = (e2.text, e2.beg, e2.fin) ∧ e1 ≠ e2 then
        if e1 ∉ st.1 ∧ e2 ∉ st.1 then
          (st.1 ++ [e1, e2], st.2 ++ [idxOf errors e1])
        else st
      else st)
    st

/-- Source: `GramChecker._find_duplicate_errors`. -/
def findDuplicateErrors (errors : List GErr) : List Nat :=
  (errors.foldl (findDupStep errors) ([], [])).2

/-- Keep the elements whose position is not listed in `idxs`, counting from
`i`. -/
def keepNonIdx (idxs : List Nat) : Nat → List GErr → List GErr
  | _, [] => []
  | i, e :: rest =>
    if idxs.contains i then keepNonIdx idxs (i + 1) rest
    else e :: keepNonIdx idxs (i + 1) rest

/-- Source: `GramChecker._remove_duplicate_errors`: deleting a set of positions in
descending order is the same as keeping the elements whose position is not in
the set. -/
def removeDuplicateErrors (errors : List GErr) : List GErr :=
  keepNonIdx (findDuplicateErrors errors) 0 errors

/-!
## `divvun_checker_fixes.py` — the `ErrorData`-shaped variant

`ErrorData` there carries `error_string`, `start`, `end`, `error_type`,
`explanation`, `suggestions` (no title). -/

structure CErr where
  error_string : List Char
  start : Int
  stop : Int
  error_type : String
  explanation : String
  suggestions : List (List Char)
deriving DecidableEq, Repr

/-- Source: `divvun_checker_fixes.fix_aistton_both`: the two endpoint spans, with
suggestions reduced to the first character of the first engine suggestion and
the last character of the last engine suggestion. -/
def cfFixAisttonBoth (e : CErr) : List CErr :=
  [ ⟨strHead e.error_string, e.start, e.start + 1, e.error_type, e.explanation,
      [strHead (e.suggestions.headD [])]⟩,
    ⟨strLast e.error_string, e.stop - 1, e.stop, e.error_type, e.explanation,
      [strLast (e.suggestions.getLastD [])]⟩ ]

/-- Source: `divvun_checker_fixes.fix_aistton_left`. -/
def cfFixAisttonLeft (e : CErr) : CErr :=
  ⟨strHead e.error_string, e.start, e.start + 1, e.error_type, e.explanation,
    [strHead (e.suggestions.headD [])]⟩

/-- Source: `divvun_checker_fixes.fix_aistton_right` (note: last character of the
FIRST suggestion there). -/
def cfFixAisttonRight (e : CErr) : CErr :=
  ⟨strLast e.error_string, e.stop - 1, e.stop, e.error_type, e.explanation,
    [strLast (e.suggestions.headD [])]⟩

/-- Source: `fix_hidden_error` of `divvun_checker_fixes.fix_hidden_by_aistton`
(same dispatch-on-own-category logic as the `GramChecker` method). -/
def cfFixHiddenError (e : CErr) : CErr :=
  if e.error_type = "punct-aistton-left" then
    { e with
      error_string := e.error_string.drop 1
      start := e.start + 1
      suggestions := e.suggestions.map fun s => s.drop 1 }
  else if e.error_type = "punct-aistton-right" then
    { e with
      error_string := e.error_string.dropLast
      stop := e.stop - 1
      suggestions := e.suggestions.map fun s => s.dropLast }
  else
    { e with
      error_string := (e.error_string.drop 1).dropLast
      start := e.start + 1
      stop := e.stop - 1
      suggestions := e.suggestions.map fun s => (s.drop 1).dropLast }

/-- Source: `divvun_checker_fixes.fix_hidden_by_aistton`. -/
def cfFixHiddenByAistton (ds : List CErr) : List CErr :=
  let ranges := (ds.filter fun e => isAisttonCat e.error_type).map fun e => (e.start, e.stop)
  ds.map fun e =>
    if ranges.contains (e.start, e.stop) && !(isAisttonCat e.error_type) then
      cfFixHiddenError e
    else e

/-- Per-error body of the loop in `divvun_checker_fixes.fix_aistton`. -/
def cfAisttonYield (e : CErr) : List CErr :=
  if e.error_type = "punct-aistton" then []
  else if e.error_type = "punct-aistton-both" then cfFixAisttonBoth e
  else if e.error_type = "punct-aistton-left" then [cfFixAisttonLeft e]
  else if e.error_type = "punct-aistton-right" then [cfFixAisttonRight e]
  else [e]

/-- Source: `divvun_checker_fixes.fix_aistton`. -/
def cfFixAistton (ds : List CErr) : List CErr :=
  (cfFixHiddenByAistton ds).flatMap cfAisttonYield

/-!
## `runtime_parser.py` — the Format B (divvun-runtime) normalizer

A runtime error object `{form, start, end, error_id, title, description,
suggestions}`; offsets are whatever the engine sent (the claims are about
whether they are bytes or characters). -/

structure RtErr where
  form : List Char
  start : Int
  stop : Int
  error_id : String
  descr : String
  suggs : List (List Char)
  title : String
deriving DecidableEq, Repr

/-- A parsed runtime response: `{text, errors}` (`encoding` unused). -/
structure RtResponse where
  text : List Char
  errors : List RtErr
deriving DecidableEq, Repr

/-- Source: `convert_runtime_error_to_checker_format`: strips a leading "err-" from
`error_id` (Python's guarded `replace("err-", "")`) and passes `start`/`end`
through unchanged. -/
def convertRuntimeError (e : RtErr) : GErr :=
  { text := e.form
    beg := e.start
    fin := e.stop
    cat := if strStartsWith e.error_id "err-" then strReplace e.error_id "err-" "" else e.error_id
    expl := e.descr
    suggs := e.suggs
    title := e.title }

/-- Inner loop of `split_runtime_output_by_lines`: keep the errors whose
offsets fall inside `[lineStart, lineEnd)` (with `end ≤ lineEnd`), rebased
to the line start. -/
def lineErrors (allErrors : List RtErr) (lineStart lineEnd : Int) : List RtErr :=
  (allErrors.filter fun e =>
      decide (lineStart ≤ e.start) && decide (e.start < lineEnd) && decide (e.stop ≤ lineEnd)).map
    fun e => { e with start := e.start - lineStart, stop := e.stop - lineStart }

/-- Tail of `split_runtime_output_by_lines`: walk the lines keeping a running
`line_start`, advancing by `len(line) + 1` for the split-away newline. -/
def splitLinesGo (allErrors : List RtErr) : Int → List (List Char) → List (List Char × List RtErr)
  | _, [] => []
  | lineStart, line :: rest =>
    let lineEnd := lineStart + line.length
    (line, lineErrors allErrors lineStart lineEnd) :: splitLinesGo allErrors (lineEnd + 1) rest

/-- Source: `split_runtime_output_by_lines`. -/
def splitRuntimeOutputByLines (r : RtResponse) : List (List Char × List RtErr) :=
  splitLinesGo r.errors 0 (r.text.splitOn '\n')

/-- Source: `convert_runtime_to_checker_format`. -/
def convertRuntimeToCheckerFormat (r : RtResponse) : List (List Char × List GErr) :=
  (splitRuntimeOutputByLines r).map fun p => (p.1, p.2.map convertRuntimeError)

/-- Number of UTF-8 bytes used to encode one character. -/
def utf8Len (c : Char) : Nat :=
  if c.toNat < 128 then 1
  else if c.toNat < 2048 then 2
  else if c.toNat < 65536 then 3
  else 4

/-- Modelled from the spec: "the character offset equals the decoded length
of the UTF-8 prefix `text[:byte_offset]`" — the byte-offset → character-offset
conversion that claim C3 says the normalizer performs (the repository's own
test suite exercises it as `byte_offset_to_char_offset`, but the function is
absent from `src/giellaltgramtools/runtime_parser.py`). -/
def specByteToCharOffset : List Char → Nat → Nat
  | [], _ => 0
  | c :: cs, b => if utf8Len c ≤ b then 1 + specByteToCharOffset cs (b - utf8Len c) else 0

/-!
### ANSI stripping, brace matching and JSON parsing (`runtime_parser.py`)
-/

/-- The escape character `\x1b`. -/
def escChar : Char := Char.ofNat 27

/-- Opening and closing curly braces (kept out of string literals). -/
def braceOpen : Char := Char.ofNat 123

def braceClose : Char := Char.ofNat 125

/-- A character matched by `[0-9;]` in the ANSI regex. -/
def isAnsiParam (c : Char) : Bool := c.isDigit || c = ';'

/-- Fuel-driven worker for `strip_ansi_codes`: replaces every non-overlapping
match of `ESC \[ [0-9;]* [a-zA-Z]` by nothing, scanning left to right exactly
as `re.sub` does (a failed match at an ESC emits the ESC and resumes at the
next character; no later character of a failed attempt can start a match
since only ESC can). -/
def stripAnsiGo : Nat → List Char → List Char
  | 0, cs => cs
  | _ + 1, [] => []
  | fuel + 1, c :: cs =>
    if c = escChar then
      match cs with
      | '[' :: cs2 =>
        let tail := cs2.dropWhile isAnsiParam
        match tail with
        | t :: rest =>
          if t.isAlpha then stripAnsiGo fuel rest
          else c :: stripAnsiGo fuel cs
        | [] => c :: stripAnsiGo fuel cs
      | _ => c :: stripAnsiGo fuel cs
    else c :: stripAnsiGo fuel cs

/-- Source: `strip_ansi_codes`. -/
def stripAnsi (cs : List Char) : List Char := stripAnsiGo cs.length cs

/-- Brace matching of `extract_json_from_runtime_output`: starting at the
first `{`, keep characters while counting braces; `none` when the count
never returns to zero (Python's `json_end == -1`). -/
def takeBalanced : List Char → Nat → List Char → Option (List Char)
  | [], _, _ => none
  | c :: rest, depth, acc =>
    if c = braceOpen then takeBalanced rest (depth + 1) (acc ++ [c])
    else if c = braceClose then
      if depth = 1 then some (acc ++ [c])
      else takeBalanced rest (depth - 1) (acc ++ [c])
    else takeBalanced rest depth (acc ++ [c])

/-- Predicate "not an opening brace", the scan predicate of `clean_output.find('{')`. -/
def notBrace (c : Char) : Bool := c ≠ braceOpen

/-- Source: `extract_json_from_runtime_output`: ANSI-strip, find the first `{`
(`json_start == -1` is the dropWhile residue being empty), brace-match; on
either failure return the two-character object literal "{}". -/
def extractJson (out : List Char) : List Char :=
  let tail := (stripAnsi out).dropWhile notBrace
  if tail.isEmpty then [braceOpen, braceClose]
  else
    match takeBalanced tail 0 [] with
    | none => [braceOpen, braceClose]
    | some js => js

/-- JSON values, the shape `json.loads` produces (numbers kept as their raw
lexeme: no claim depends on numeric decoding of parsed JSON). -/
inductive JVal where
  | null : JVal
  | bool (b : Bool) : JVal
  | num (raw : List Char) : JVal
  | str (s : List Char) : JVal
  | arr (xs : List JVal) : JVal
  | obj (kvs : List (List Char × JVal)) : JVal

/-- JSON whitespace. -/
def isJsonWs (c : Char) : Bool := c = ' ' || c = '\n' || c = '\t' || c = '\r'

def skipWs (cs : List Char) : List Char := cs.dropWhile isJsonWs

/-- Hexadecimal digit test. -/
def isHexDig (c : Char) : Bool :=
  c.isDigit || ('a' ≤ c && c ≤ 'f') || ('A' ≤ c && c ≤ 'F')

/-- One character of a JSON string body; handles the standard escapes
(`\u` escapes decoded from four hex digits). -/
def parseStringBody : Nat → List Char → Option (List Char × List Char)
  | 0, _ => none
  | _ + 1, [] => none
  | fuel + 1, c :: rest =>
    if c = '"' then some ([], rest)
    else if c = '\\' then
      match rest with
      | [] => none
      | e :: rest2 =>
        let dec : Option (Char × List Char) :=
          if e = 'n' then some ('\n', rest2)
          else if e = 't' then some ('\t', rest2)
          else if e = 'r' then some ('\r', rest2)
          else if e = 'b' then some (Char.ofNat 8, rest2)
          else if e = 'f' then some (Char.ofNat 12, rest2)
          else if e = '"' ∨ e = '\\' ∨ e = '/' then some (e, rest2)
          else if e = 'u' then
            match rest2 with
            | h1 :: h2 :: h3 :: h4 :: rest3 =>
              if isHexDig h1 && isHexDig h2 && isHexDig h3 && isHexDig h4 then
                let hv := fun (h : Char) =>
                  if h.isDigit then h.toNat - 48
                  else if h ≤ 'F' then h.toNat - 55 else h.toNat - 87
                some (Char.ofNat (((hv h1 * 16 + hv h2) * 16 + hv h3) * 16 + hv h4), rest3)
              else none
            | _ => none
          else none
        match dec with
        | some (d, rest') =>
          match parseStringBody fuel rest' with
          | some (s, rest'') => some (d :: s, rest'')
          | none => none
        | none => none
    else
      match parseStringBody fuel rest with
      | some (s, rest') => some (c :: s, rest')
      | none => none

/-- A character that may occur in a JSON number lexeme. -/
def isNumChar (c : Char) : Bool :=
  c.isDigit || c = '-' || c = '+' || c = '.' || c = 'e' || c = 'E'

mutual

/-- Recursive-descent JSON value parser (fuel-driven). -/
def parseValue : Nat → List Char → Option (JVal × List Char)
  | 0, _ => none
  | fuel + 1, cs =>
    match skipWs cs with
    | [] => none
    | c :: rest =>
      if c = '"' then
        match parseStringBody (fuel + 1) rest with
        | some (s, rest') => some (.str s, rest')
        | none => none
      else if c = braceOpen then parseObject fuel (skipWs rest) true
      else if c = '[' then parseArray fuel (skipWs rest) true
      else if c = 't' then
        match rest with
        | 'r' :: 'u' :: 'e' :: rest' => some (.bool true, rest')
        | _ => none
      else if c = 'f' then
        match rest with
        | 'a' :: 'l' :: 's' :: 'e' :: rest' => some (.bool false, rest')
        | _ => none
      else if c = 'n' then
        match rest with
        | 'u' :: 'l' :: 'l' :: rest' => some (.null, rest')
        | _ => none
      else if c.isDigit || c = '-' then
        let lexeme := c :: rest.takeWhile isNumChar
        some (.num lexeme, rest.dropWhile isNumChar)
      else none

/-- Object tail parser; `first` is true right after the `{`. -/
def parseObject : Nat → List Char → Bool → Option (JVal × List Char)
  | 0, _, _ => none
  | _ + 1, [], _ => none
  | fuel + 1, c :: rest, first =>
    if c = braceClose ∧ first then some (.obj [], rest)
    else
      match parseValue fuel (c :: rest) with
      | some (.str key, rest1) =>
        match skipWs rest1 with
        | ':' :: rest2 =>
          match parseValue fuel rest2 with
          | some (v, rest3) =>
            match skipWs rest3 with
            | ',' :: rest4 =>
              match parseObject fuel (skipWs rest4) false with
              | some (.obj kvs, rest5) => some (.obj ((key, v) :: kvs), rest5)
              | _ => none
            | d :: rest4 =>
              if d = braceClose then some (.obj [(key, v)], rest4) else none
            | [] => none
          | none => none
        | _ => none
      | _ => none

/-- Array tail parser; `first` is true right after the `[`. -/
def parseArray : Nat → List Char → Bool → Option (JVal × List Char)
  | 0, _, _ => none
  | _ + 1, [], _ => none
  | fuel + 1, c :: rest, first =>
    if c = ']' ∧ first then some (.arr [], rest)
    else
      match parseValue fuel (c :: rest) with
      | some (v, rest1) =>
        match skipWs rest1 with
        | ',' :: rest2 =>
          match parseArray fuel (skipWs rest2) false with
          | some (.arr xs, rest3) => some (.arr (v :: xs), rest3)
          | _ => none
        | ']' :: rest2 => some (.arr [v], rest2)
        | _ => none
      | none => none

end

/-- Source: `json.loads`: parse one value and require only whitespace after it. -/
def jsonLoads (cs : List Char) : Option JVal :=
  match parseValue (cs.length + 1) cs with
  | some (v, rest) => if skipWs rest = [] then some v else none
  | none => none

/-- Dictionary lookup, Python `dict.get(key)`. -/
def jGet (v : JVal) (key : List Char) : Option JVal :=
  match v with
  | .obj kvs => (kvs.find? fun kv => kv.1 = key).map Prod.snd
  | _ => none

/-- Source: `parse_runtime_response`: extract the JSON substring and parse it; on a
decode error return the fallback `{"text": "", "errors": [], "encoding":
"utf-8"}`. -/
def parseRuntimeResponse (out : List Char) : JVal :=
  match jsonLoads (extractJson out) with
  | some v => v
  | none =>
    .obj [("text".toList, .str []), ("errors".toList, .arr []),
          ("encoding".toList, .str "utf-8".toList)]

/-- The observable `text` of a response, `response.get("text", "")` as every
consumer reads it. -/
def responseText (v : JVal) : List Char :=
  match jGet v "text".toList with
  | some (.str s) => s
  | _ => []

/-- The observable `errors` of a response, `response.get("errors", [])`. -/
def responseErrors (v : JVal) : List JVal :=
  match jGet v "errors".toList with
  | some (.arr xs) => xs
  | _ => []

/-!
## `gramtest.py` / `normaloutput.py` — the report aggregator
-/

/-- The accumulated outcome counter (`Counter` holds naturals). -/
structure OutcomeCount where
  tp : Nat
  tn : Nat
  fp1 : Nat
  fp2 : Nat
  fn1 : Nat
  fn2 : Nat
deriving DecidableEq, Repr

/-- Source: `prec = tp / (tp + fp1 + fp2)` as the source computes it (meaningful when
the denominator is nonzero). -/
def precVal (c : OutcomeCount) : ℚ :=
  (c.tp : ℚ) / ((c.tp : ℚ) + ((c.fp1 : ℚ) + (c.fp2 : ℚ)))

/-- Source: `recall = tp / (tp + fn1 + fn2)` as the source computes it. -/
def recallVal (c : OutcomeCount) : ℚ :=
  (c.tp : ℚ) / ((c.tp : ℚ) + ((c.fn1 : ℚ) + (c.fn2 : ℚ)))

/-- Source: `NormalOutput.precision`: the `try` block computes `prec`, then `recall`,
then `f1score`; the first `ZeroDivisionError` aborts the whole block and the
`except` arm emits nothing.  `none` is the silent arm, `some` carries the
`(precision, recall, f1)` triple that gets printed. -/
def precisionReport (c : OutcomeCount) : Option (ℚ × ℚ × ℚ) :=
  if (c.tp : ℚ) + ((c.fp1 : ℚ) + (c.fp2 : ℚ)) = 0 then none
  else
    let p := precVal c
    if (c.tp : ℚ) + ((c.fn1 : ℚ) + (c.fn2 : ℚ)) = 0 then none
    else
      let r := recallVal c
      if p + r = 0 then none
      else some (p, r, 2 * p * r / (p + r))

/-!
## `comparator.py` — the engine-comparison record
-/

/-- Source: `CheckerResult` (`form`, `beg`, `end`, `err`, `rep`). -/
structure CheckerResult where
  form : List Char
  beg : Int
  fin : Int
  err : String
  rep : List (List Char)
deriving DecidableEq, Repr

/-- ASCII lower-casing, `str.lower` on the ASCII category names the
comparator handles. -/
def asciiLower (s : String) : String :=
  String.mk (s.toList.map fun c =>
    if 'A' ≤ c ∧ c ≤ 'Z' then Char.ofNat (c.toNat + 32) else c)

/-- Source: `CheckerResult.__eq__`: fields compared exactly except `err`, which is
lower-cased on both sides. -/
def crEq (x y : CheckerResult) : Bool :=
  x.form == y.form && x.beg == y.beg && x.fin == y.fin
    && asciiLower x.err == asciiLower y.err && x.rep == y.rep

/-- Source: `CheckerResult.__hash__` hashes the tuple `(form, beg, end, tuple(rep))`;
two such tuples hash equal whenever they are equal, so we model the hash by
the tuple itself (the category is omitted from it). -/
def crHashKey (x : CheckerResult) : List Char × Int × Int × List (List Char) :=
  (x.form, x.beg, x.fin, x.rep)

/-!
## `gramchecker.py` — the markup extractor

An lxml element is a tag, its text, its attributes (only `errorinfo` is ever
read, on "correct" children), its children and its tail text.  Absent
text/tail (`None`) and empty text behave identically everywhere the extractor
looks at them, so both are the empty list. -/

inductive MTree where
  | node (tag : String) (txt : List Char) (einfo : List Char)
      (children : List MTree) (tail : List Char) : MTree

def tagOf : MTree → String
  | .node t _ _ _ _ => t

def txtOf : MTree → List Char
  | .node _ x _ _ _ => x

def einfoOf : MTree → List Char
  | .node _ _ i _ _ => i

def childrenOf : MTree → List MTree
  | .node _ _ _ cs _ => cs

def tailOf : MTree → List Char
  | .node _ _ _ _ tl => tl

/-- Source: `GramChecker.is_non_nested_error`: all children are "correct". -/
def isNonNested (t : MTree) : Bool :=
  (childrenOf t).all fun c => tagOf c = "correct"

/-- Source: `para.find("./correct")`: first "correct" child. -/
def findCorrect (cs : List MTree) : Option MTree :=
  cs.find? fun c => tagOf c = "correct"

mutual

/-- Source: `GramChecker.get_error_corrections`. -/
def gec : MTree → List Char
  | .node _ txt _ children tl =>
    txt ++ gecChildren children ++ (if children.isEmpty then tl else [])

/-- The `for child in para` loop of `get_error_corrections`. -/
def gecChildren : List MTree → List Char
  | [] => []
  | .node ctag _ _ cchildren _ :: rest =>
    (if ctag ≠ "correct" then
      match findCorrect cchildren with
      | some cor => txtOf cor ++ gecGrand cchildren
      | none => []
    else []) ++ gecChildren rest

/-- The `for grandchild in child` loop of `get_error_corrections`. -/
def gecGrand : List MTree → List Char
  | [] => []
  | g :: rest => (if tagOf g ≠ "correct" then gec g else []) ++ gecGrand rest

end

/-- The canonical expected-error record, `ErrorData` as
`GramChecker.extract_error_info` builds it. -/
structure EData where
  error_string : List Char
  start : Nat
  stop : Nat
  error_type : String
  explanation : List Char
  suggestions : List (List Char)
  native_error_type : String
deriving DecidableEq, Repr

/-- The two mutable accumulator lists `parts` and `errors` threaded through
`extract_error_info`. -/
structure WState where
  parts : List (List Char)
  errs : List (Option EData)
deriving DecidableEq, Repr

/-- Source: `len("".join(parts))`. -/
def lenParts (ps : List (List Char)) : Nat := ps.flatten.length

/-- Source: `if text: parts.append(text)` — empty (or absent) text is not pushed. -/
def pushPart (st : WState) (x : List Char) : WState :=
  if x.isEmpty then st else ⟨st.parts ++ [x], st.errs⟩

mutual

/-- Source: `GramChecker.extract_error_info`: records the running offset before
appending the node's text, walks the non-"correct" children, then fixes the
`end` offset and appends the tail.  (The Python code creates the `ErrorData`
up front with `end=-1` and mutates `end` after the child walk; building the
record once both offsets are known is the same thing.) -/
def extractEI : WState → MTree → WState × Option EData
  | st, .node tag txt einfo children tl =>
    let startPos := lenParts st.parts
    let st2 := extractChildren (pushPart st txt) children
    let info : Option EData :=
      if strStartsWith tag "error" then
        some
          { error_string :=
              if children.isEmpty then txt else gec (.node tag txt einfo children tl)
            start := startPos
            stop := lenParts st2.parts
            error_type := tag
            explanation :=
              match findCorrect children with
              | some cor => einfoOf cor
              | none => []
            suggestions := (children.filter fun c => tagOf c = "correct").map txtOf
            native_error_type := tag }
      else none
    (pushPart st2 tl, info)

/-- The `for child in para` loop of `extract_error_info`: "correct" children
are skipped, non-nested children have their returned record appended to
`errors`, nested ones are recursed into for their descendants only. -/
def extractChildren : WState → List MTree → WState
  | st, [] => st
  | st, child :: rest =>
    let st' :=
      if tagOf child ≠ "correct" then
        if isNonNested child then
          let r := extractEI st child
          ⟨r.1.parts, r.1.errs ++ [r.2]⟩
        else (extractEI st child).1
      else st
    extractChildren st' rest

end

/-- Source: `GramChecker.paragraph_to_testdata`: flatten the parts (replacing
newlines by spaces) and keep the non-`None` collected errors.  The value
returned for the root node itself is discarded. -/
def paragraphToTestdata (t : MTree) : List Char × List EData :=
  let r := extractEI ⟨[], []⟩ t
  (replaceNL r.1.parts.flatten, r.1.errs.filterMap id)

mutual

/-- Well-formed markup: "correct" elements carry only replacement text, no
element children. -/
def wfT : MTree → Bool
  | .node tag _ _ cs _ => (if tag = "correct" then cs.isEmpty else true) && wfL cs

def wfL : List MTree → Bool
  | [] => true
  | c :: rest => wfT c && wfL rest

end

/-- A collected span is good for an accumulated `parts` list when its range
is well-formed, lies inside the flattened text, and the flattened text
restricted to `[start, stop)` is exactly its `error_string`. -/
def GoodIn (ps : List (List Char)) (e : EData) : Prop :=
  e.start ≤ e.stop ∧ e.stop ≤ ps.flatten.length
    ∧ sliceL ps.flatten e.start e.stop = e.error_string

mutual

/-- Stated from the claim's words, for comparison with the extractor: the
number of non-nested error annotations (nodes whose tag starts with "error"
and whose children are exclusively "correct" nodes) anywhere in the tree. -/
def countNonNested : MTree → Nat
  | .node tag _ _ cs _ =>
    (if strStartsWith tag "error" ∧ (cs.all fun c => tagOf c = "correct") then 1 else 0)
      + countNonNestedL cs

def countNonNestedL : List MTree → Nat
  | [] => 0
  | c :: rest => countNonNested c + countNonNestedL rest

end

/-- Concrete "punct-aistton-both" spans used as C4 witnesses. -/
def wBothG : GErr :=
  ⟨['«', 'a', 'b', '»'], 10, 14, "punct-aistton-both", "", [['”', 'a', 'b', '”']], ""⟩

def wBothC : CErr :=
  ⟨['«', 'a', 'b', '»'], 10, 14, "punct-aistton-both", "", [['”', 'a', 'b', '”']]⟩

/-- The spec's round-trip example tree:
`<p>Mun lean <errorort>sjievnnjis<correct errorinfo="conc,vnn-vnnj">sjievnnijis</correct></errorort></p>`. -/
def exampleTree : MTree :=
  .node "p" "Mun lean ".toList []
    [.node "errorort" "sjievnnjis".toList []
      [.node "correct" "sjievnnijis".toList "conc,vnn-vnnj".toList [] []] []] []

/-- Concrete expected/reported spans used as C6 witnesses (the spec's
end-to-end true-positive scenario). -/
def wExp : GErr := ⟨['c'], 3, 6, "errorort", "", [['b']], ""⟩

def wRep : GErr := ⟨['c'], 3, 6, "msyn", "", [['a'], ['b']], ""⟩
end GLT

namespace GLT

/-- C1.  `has_same_range_and_error` with a reported category of
"double-space-before" compares only the `start` slots (the slice `[1:2]`
has a single element), so two spans whose ends differ still match: the
claim's requirement `e.end = d.end` is not checked by the code. -/
theorem sameRange_doubleSpace_ignores_end :
    hasSameRangeAndError
      ⟨['c'], 3, 6, "errorsyn", "", [], ""⟩
      ⟨[], 3, 7, "double-space-before", "", [], ""⟩ = true
    ∧ (6 : Int) ≠ 7 := by
  constructor
  · rfl
  · decide

/-- C2.  `fix_hidden_by_aistton` dispatches on the hidden error's own
category, which the `is_hidden_error` guard guarantees is never an aistton
category, so the "-left"/"-right" arms are unreachable and every hidden error
gets the "-both" treatment.  Here a "typo" masked by a `punct-aistton-left`
span of the same range `(0, 2)` and an "msyn" masked by a
`punct-aistton-right` span at `(3, 5)` both come out with BOTH ends stripped
(`text[1:-1]`, `start+1`, `end-1`), not with the single-sided stripping the
claim describes for "-left"/"-right" maskers.  The `divvun_checker_fixes`
copy of the function carries the identical slip (last conjunct). -/
theorem fixHidden_always_strips_both_sides :
    fixHiddenByAistton
      [ ⟨['«', 'a'], 0, 2, "punct-aistton-left", "", [['”', 'a']], ""⟩,
        ⟨['a', 'b'], 0, 2, "typo", "", [['c', 'd']], ""⟩,
        ⟨['c', '»'], 3, 5, "punct-aistton-right", "", [['c', '”']], ""⟩,
        ⟨['e', 'f'], 3, 5, "msyn", "", [['g', 'h']], ""⟩ ]
    = [ ⟨['«', 'a'], 0, 2, "punct-aistton-left", "", [['”', 'a']], ""⟩,
        ⟨[], 1, 1, "typo", "", [[]], ""⟩,
        ⟨['c', '»'], 3, 5, "punct-aistton-right", "", [['c', '”']], ""⟩,
        ⟨[], 4, 4, "msyn", "", [[]], ""⟩ ]
    ∧ (⟨[], 1, 1, "typo", "", [[]], ""⟩ : GErr)
        ≠ ⟨['b'], 1, 2, "typo", "", [['d']], ""⟩
    ∧ (⟨[], 4, 4, "msyn", "", [[]], ""⟩ : GErr)
        ≠ ⟨['e'], 3, 4, "msyn", "", [['g']], ""⟩
    ∧ cfFixHiddenByAistton
        [ ⟨['«', 'a'], 0, 2, "punct-aistton-left", "", [['”', 'a']]⟩,
          ⟨['a', 'b'], 0, 2, "typo", "", [['c', 'd']]⟩ ]
      = [ ⟨['«', 'a'], 0, 2, "punct-aistton-left", "", [['”', 'a']]⟩,
          ⟨[], 1, 1, "typo", "", [[]]⟩ ] := by
  refine ⟨?_, by decide, by decide, ?_⟩ <;> decide

/-- C3.  The Format B normalizer in `runtime_parser.py` never converts byte
offsets to character offsets: `convert_runtime_error_to_checker_format`
passes `start`/`end` straight through, and `split_runtime_output_by_lines`
compares those byte offsets against character-counted line boundaries.  For
the text "Aá b" (4 characters, 5 UTF-8 bytes) with an error on "b" at byte
range `[4, 5)`: the claimed conversion gives character range `[3, 4)`, which
addresses "b"; the code instead keeps `start = 4`, and since the line is only
4 characters long the error is dropped from its line altogether. -/
theorem runtime_offsets_stay_bytes :
    convertRuntimeError ⟨['b'], 4, 5, "err-typo", "", [], ""⟩
      = ⟨['b'], 4, 5, "typo", "", [], ""⟩
    ∧ splitRuntimeOutputByLines ⟨['A', 'á', ' ', 'b'], [⟨['b'], 4, 5, "err-typo", "", [], ""⟩]⟩
      = [(['A', 'á', ' ', 'b'], [])]
    ∧ specByteToCharOffset ['A', 'á', ' ', 'b'] 4 = 3
    ∧ specByteToCharOffset ['A', 'á', ' ', 'b'] 5 = 4
    ∧ sliceL ['A', 'á', ' ', 'b'] 3 4 = ['b']
    ∧ sliceL ['A', 'á', ' ', 'b'] 4 5 = []
    ∧ (3 : Int) ≠ 4 := by
  refine ⟨?_, ?_, by decide, by decide, by decide, by decide, by decide⟩
  · decide
  · decide

/-- C4 counterexample.  `GramChecker.fix_aistton` (one of the two cited
implementations of the aistton-splitting stage) emits the hard-coded
suggestion list `["”"]` for a "punct-aistton-both" span, not the first
character of the engine's first suggestion: with suggestions `["xy"]` the
claim demands `["x"]`. -/
theorem aistton_both_suggestion_hardcoded :
    fixAistton [⟨['a', 'b'], 0, 2, "punct-aistton-both", "", [['x', 'y']], ""⟩]
      = [ ⟨['a'], 0, 1, "punct-aistton-both", "", [['”']], ""⟩,
          ⟨['b'], 1, 2, "punct-aistton-both", "", [['”']], ""⟩ ]
    ∧ ([['”']] : List (List Char)) ≠ [['x']] := by
  refine ⟨?_, by decide⟩
  decide

/-- C4 as amended.  Both implementations of the aistton-splitting stage turn
a "punct-aistton-both" span into exactly the two single-character endpoint
spans at `[start, start+1)` and `[end-1, end)` carrying the first and last
character of the original text, and both drop bare "punct-aistton" spans;
the suggestions differ: `divvun_checker_fixes.fix_aistton_both` reduces them
to the first character of the first suggestion / last character of the last
suggestion, while `GramChecker.fix_aistton` always emits `["”"]`.  The
hidden-error pre-pass never touches an aistton-category span, so the split
applies to the span as reported. -/
theorem aistton_split_spec (e : GErr) (ec : CErr)
    (he : e.cat = "punct-aistton-both") (ht : e.text ≠ [])
    (hec : ec.error_type = "punct-aistton-both") (hts : ec.error_string ≠ []) :
    (∀ ds, fixAistton ds = (fixHiddenByAistton ds).flatMap aisttonYield)
    ∧ (∀ r, isHiddenError r e = false)
    ∧ aisttonYield e
        = [ ⟨strHead e.text, e.beg, e.beg + 1, e.cat, e.expl, [['”']], e.title⟩,
            ⟨strLast e.text, e.fin - 1, e.fin, e.cat, e.expl, [['”']], e.title⟩ ]
    ∧ (strHead e.text).length = 1
    ∧ (strLast e.text).length = 1
    ∧ cfAisttonYield ec
        = [ ⟨strHead ec.error_string, ec.start, ec.start + 1, ec.error_type, ec.explanation,
              [strHead (ec.suggestions.headD [])]⟩,
            ⟨strLast ec.error_string, ec.stop - 1, ec.stop, ec.error_type, ec.explanation,
              [strLast (ec.suggestions.getLastD [])]⟩ ]
    ∧ (∀ f : GErr, f.cat = "punct-aistton" → aisttonYield f = [])
    ∧ (∀ fc : CErr, fc.error_type = "punct-aistton" → cfAisttonYield fc = []) := by
  have h01 : 0 < e.text.length := List.length_pos.mpr ht
  have h02 : 0 < ec.error_string.length := List.length_pos.mpr hts
  refine ⟨fun ds => rfl, ?_, ?_, ?_, ?_, ?_, ?_, ?_⟩
  · intro r
    simp [isHiddenError, isAisttonCat, he]
  · simp [aisttonYield, he]
  · simp only [strHead, List.length_take]
    omega
  · simp only [strLast, List.length_drop]
    omega
  · simp [cfAisttonYield, cfFixAisttonBoth, hec]
  · intro f hf
    simp [aisttonYield, hf]
  · intro fc hfc
    simp [cfAisttonYield, hfc]

/-- Witness for C4's amended theorem at a concrete both-span. -/
theorem aistton_split_spec_witness :
    (∀ ds, fixAistton ds = (fixHiddenByAistton ds).flatMap aisttonYield)
    ∧ (∀ r, isHiddenError r wBothG = false)
    ∧ aisttonYield wBothG
        = [ ⟨strHead wBothG.text, wBothG.beg, wBothG.beg + 1, wBothG.cat, wBothG.expl,
              [['”']], wBothG.title⟩,
            ⟨strLast wBothG.text, wBothG.fin - 1, wBothG.fin, wBothG.cat, wBothG.expl,
              [['”']], wBothG.title⟩ ]
    ∧ (strHead wBothG.text).length = 1
    ∧ (strLast wBothG.text).length = 1
    ∧ cfAisttonYield wBothC
        = [ ⟨strHead wBothC.error_string, wBothC.start, wBothC.start + 1, wBothC.error_type,
              wBothC.explanation, [strHead (wBothC.suggestions.headD [])]⟩,
            ⟨strLast wBothC.error_string, wBothC.stop - 1, wBothC.stop, wBothC.error_type,
              wBothC.explanation, [strLast (wBothC.suggestions.getLastD [])]⟩ ]
    ∧ (∀ f : GErr, f.cat = "punct-aistton" → aisttonYield f = [])
    ∧ (∀ fc : CErr, fc.error_type = "punct-aistton" → cfAisttonYield fc = []) :=
  aistton_split_spec wBothG wBothC rfl (by decide) rfl (by decide)

/-- C10.  `CheckerResult.__eq__` compares `form`, `beg`, `end`, `rep`
exactly and `err` after lower-casing; `__hash__` is computed from the tuple
`(form, beg, end, rep)` with the category omitted, so equal records have
equal hash tuples. -/
theorem checkerResult_eq_spec (x y : CheckerResult) :
    (crEq x y = true
      ↔ (x.form = y.form ∧ x.beg = y.beg ∧ x.fin = y.fin
          ∧ asciiLower x.err = asciiLower y.err ∧ x.rep = y.rep))
    ∧ (crEq x y = true → crHashKey x = crHashKey y) := by
  constructor
  · simp [crEq, and_assoc]
  · intro h
    simp [crEq, and_assoc] at h
    simp [crHashKey, h.1, h.2.1, h.2.2.1, h.2.2.2.2]

/-- Witness for C10 at two concrete records whose categories differ only in
case: they are equal and share the hash tuple. -/
theorem checkerResult_eq_spec_witness :
    (crEq ⟨['a'], 1, 2, "TYPO", [['b']]⟩ ⟨['a'], 1, 2, "typo", [['b']]⟩ = true
      ↔ ((['a'] : List Char) = ['a'] ∧ (1 : Int) = 1 ∧ (2 : Int) = 2
          ∧ asciiLower "TYPO" = asciiLower "typo"
          ∧ ([['b']] : List (List Char)) = [['b']]))
    ∧ (crEq ⟨['a'], 1, 2, "TYPO", [['b']]⟩ ⟨['a'], 1, 2, "typo", [['b']]⟩ = true →
        crHashKey ⟨['a'], 1, 2, "TYPO", [['b']]⟩ = crHashKey ⟨['a'], 1, 2, "typo", [['b']]⟩) :=
  checkerResult_eq_spec ⟨['a'], 1, 2, "TYPO", [['b']]⟩ ⟨['a'], 1, 2, "typo", [['b']]⟩

/-- C9.  `NormalOutput.precision` computes `prec`, `recall`, `f1score` inside
a `try` whose `except ZeroDivisionError` arm silently skips the whole
precision section: whenever any of the three denominators is zero the report
is `none` (nothing emitted) and no exception escapes. -/
theorem precision_skipped_on_zero_denominator (c : OutcomeCount)
    (h : (c.tp : ℚ) + ((c.fp1 : ℚ) + (c.fp2 : ℚ)) = 0
      ∨ (c.tp : ℚ) + ((c.fn1 : ℚ) + (c.fn2 : ℚ)) = 0
      ∨ precVal c + recallVal c = 0) :
    precisionReport c = none := by
  rcases h with h | h | h
  · simp [precisionReport, h]
  · simp [precisionReport, h]
  · simp [precisionReport]
    intro _ _
    exact h

/-- Witness for C9: the all-zero counter has zero denominators and the
precision section is skipped. -/
theorem precision_skipped_witness :
    precisionReport ⟨0, 0, 0, 0, 0, 0⟩ = none :=
  precision_skipped_on_zero_denominator ⟨0, 0, 0, 0, 0, 0⟩ (Or.inl (by norm_num))

/-- C8 counterexample.  With three mutually colliding spans (same
`(text, start, end)`, different categories) the suppressor greedily pairs the
first two and removes only the first span; the surviving pair `(c2, c3)`
still shares the triple, so "one member of each colliding pair" is not
removed. -/
theorem duplicate_triple_keeps_colliding_pair :
    removeDuplicateErrors
      [ ⟨['a'], 0, 1, "c1", "", [], ""⟩,
        ⟨['a'], 0, 1, "c2", "", [], ""⟩,
        ⟨['a'], 0, 1, "c3", "", [], ""⟩ ]
      = [ ⟨['a'], 0, 1, "c2", "", [], ""⟩, ⟨['a'], 0, 1, "c3", "", [], ""⟩ ]
    ∧ ((⟨['a'], 0, 1, "c2", "", [], ""⟩ : GErr).text,
        (⟨['a'], 0, 1, "c2", "", [], ""⟩ : GErr).beg,
        (⟨['a'], 0, 1, "c2", "", [], ""⟩ : GErr).fin)
      = ((⟨['a'], 0, 1, "c3", "", [], ""⟩ : GErr).text,
          (⟨['a'], 0, 1, "c3", "", [], ""⟩ : GErr).beg,
          (⟨['a'], 0, 1, "c3", "", [], ""⟩ : GErr).fin)
    ∧ (⟨['a'], 0, 1, "c2", "", [], ""⟩ : GErr) ≠ ⟨['a'], 0, 1, "c3", "", [], ""⟩ := by
  refine ⟨?_, by decide, by decide⟩
  decide

/-- C8 as amended.  For an input of exactly two distinct spans sharing the
same `(text, start, end)` triple, the suppressor removes exactly the first
one, and a second run on its own output removes nothing further.  (In
general each span takes part in at most one greedily chosen removal pair, so
a collision with an already-paired span is left alone, as the counterexample
shows.) -/
theorem duplicate_pair_removed_once (a b : GErr)
    (htriple : (a.text, a.beg, a.fin) = (b.text, b.beg, b.fin)) (hne : a ≠ b) :
    removeDuplicateErrors [a, b] = [b] ∧ removeDuplicateErrors [b] = [b] := by
  have hba : ¬b = a := fun h => hne h.symm
  constructor
  · simp [removeDuplicateErrors, findDuplicateErrors, findDupStep, idxOf, keepNonIdx,
      htriple, hne, hba, List.contains]
  · simp [removeDuplicateErrors, findDuplicateErrors, findDupStep, idxOf, keepNonIdx,
      List.contains]

/-- Witness for C8's amended theorem at two concrete colliding spans. -/
theorem duplicate_pair_removed_once_witness :
    removeDuplicateErrors
      [ ⟨['a'], 0, 1, "typo", "", [], ""⟩, ⟨['a'], 0, 1, "msyn", "", [], ""⟩ ]
      = [⟨['a'], 0, 1, "msyn", "", [], ""⟩]
    ∧ removeDuplicateErrors [⟨['a'], 0, 1, "msyn", "", [], ""⟩]
      = [⟨['a'], 0, 1, "msyn", "", [], ""⟩] :=
  duplicate_pair_removed_once
    ⟨['a'], 0, 1, "typo", "", [], ""⟩ ⟨['a'], 0, 1, "msyn", "", [], ""⟩
    (by decide) (by decide)

/-- Membership in the `[(c, d) for c in E for d in D if P c d]` shape shared
by the tp/fp1/fn1 bucket builders. -/
theorem mem_pairList {P : GErr → GErr → Bool} {E D : List GErr} {c d : GErr} :
    ((c, d) ∈ E.flatMap fun c' => (D.filter fun d' => P c' d').map fun d' => (c', d'))
      ↔ (c ∈ E ∧ d ∈ D ∧ P c d = true) := by
  simp only [List.mem_flatMap, List.mem_map, List.mem_filter, Prod.mk.injEq]
  constructor
  · rintro ⟨c', hc', d', ⟨hd', hP⟩, rfl, rfl⟩
    exact ⟨hc', hd', hP⟩
  · rintro ⟨hc, hd, hP⟩
    exact ⟨c, hc, d, ⟨hd, hP⟩, rfl, rfl⟩

/-- C6 counterexample.  With two expected spans at the same
`(text, start, end)` whose suggestion lists differ, a single reported span
contributes to the tp bucket through one and to the fp1 bucket through the
other — it is counted twice, not "exactly once". -/
theorem classification_double_counts :
    hasTruePositives
        [ ⟨['c'], 3, 6, "errorort", "", [['a']], ""⟩,
          ⟨['c'], 3, 6, "errorort", "", [['b']], ""⟩ ]
        [⟨['c'], 3, 6, "msyn", "", [['a']], ""⟩]
      = [(⟨['c'], 3, 6, "errorort", "", [['a']], ""⟩,
          ⟨['c'], 3, 6, "msyn", "", [['a']], ""⟩)]
    ∧ hasFalsePositives1
        [ ⟨['c'], 3, 6, "errorort", "", [['a']], ""⟩,
          ⟨['c'], 3, 6, "errorort", "", [['b']], ""⟩ ]
        [⟨['c'], 3, 6, "msyn", "", [['a']], ""⟩]
      = [(⟨['c'], 3, 6, "errorort", "", [['b']], ""⟩,
          ⟨['c'], 3, 6, "msyn", "", [['a']], ""⟩)] := by
  refine ⟨?_, ?_⟩ <;> decide

/-- C6 as amended.  The classification is a partition at pair granularity:
for `c ∈ E`, `d ∈ D` with matching location, the pair `(c, d)` lands in
exactly one of the tp/fp1/fn1 buckets (and then `d` is not in fp2, `c` not
in fn2); `d` is counted in fp2 iff it matches no expected span, and `c` in
fn2 iff it matches no reported span.  A span matching several counterparts
contributes once per matching pair, so a single `d` can add to several
buckets through different `e`s. -/
theorem classification_pair_partition (E D : List GErr) (c d : GErr)
    (hc : c ∈ E) (hd : d ∈ D) :
    (hasSameRangeAndError c d = true →
      (((c, d) ∈ hasTruePositives E D) ↔ hasSuggestionsWithHit c d = true)
      ∧ (((c, d) ∈ hasFalsePositives1 E D) ↔ hasSuggestionsWithoutHit c d = true)
      ∧ (((c, d) ∈ hasFalseNegatives1 E D) ↔ hasNoSuggestions c d = true)
      ∧ ((c, d) ∈ hasTruePositives E D ∨ (c, d) ∈ hasFalsePositives1 E D
          ∨ (c, d) ∈ hasFalseNegatives1 E D)
      ∧ ¬((c, d) ∈ hasTruePositives E D ∧ (c, d) ∈ hasFalsePositives1 E D)
      ∧ ¬((c, d) ∈ hasTruePositives E D ∧ (c, d) ∈ hasFalseNegatives1 E D)
      ∧ ¬((c, d) ∈ hasFalsePositives1 E D ∧ (c, d) ∈ hasFalseNegatives1 E D)
      ∧ d ∉ hasFalsePositives2 E D
      ∧ c ∉ hasFalseNegatives2 E D)
    ∧ (d ∈ hasFalsePositives2 E D ↔ ∀ c' ∈ E, hasSameRangeAndError c' d = false)
    ∧ (c ∈ hasFalseNegatives2 E D ↔ ∀ d' ∈ D, hasSameRangeAndError c d' = false) := by
  have htp : ((c, d) ∈ hasTruePositives E D) ↔ hasSuggestionsWithHit c d = true := by
    rw [hasTruePositives, mem_pairList]
    simp [hc, hd]
  have hfp1 : ((c, d) ∈ hasFalsePositives1 E D) ↔ hasSuggestionsWithoutHit c d = true := by
    rw [hasFalsePositives1, mem_pairList]
    simp [hc, hd]
  have hfn1 : ((c, d) ∈ hasFalseNegatives1 E D) ↔ hasNoSuggestions c d = true := by
    rw [hasFalseNegatives1, mem_pairList]
    simp [hc, hd]
  have hfp2 : (d ∈ hasFalsePositives2 E D) ↔ ∀ c' ∈ E, hasSameRangeAndError c' d = false := by
    simp [hasFalsePositives2, List.mem_filter, hd]
  have hfn2 : (c ∈ hasFalseNegatives2 E D) ↔ ∀ d' ∈ D, hasSameRangeAndError c d' = false := by
    simp [hasFalseNegatives2, List.mem_filter, hc]
  refine ⟨fun hsame => ⟨htp, hfp1, hfn1, ?_, ?_, ?_, ?_, ?_, ?_⟩, hfp2, hfn2⟩
  · rw [htp, hfp1, hfn1]
    by_cases hs : d.suggs = []
    · exact Or.inr (Or.inr (by simp [hasNoSuggestions, hsame, hs]))
    · by_cases hh : (c.suggs.any fun t => d.suggs.contains t) = true
      · refine Or.inl ?_
        have hlen : 0 < d.suggs.length := List.length_pos.mpr hs
        simp only [hasSuggestionsWithHit, Bool.and_eq_true, decide_eq_true_eq]
        exact ⟨⟨hlen, hsame⟩, hh⟩
      · refine Or.inr (Or.inl ?_)
        have h1 : d.suggs.isEmpty = false := by
          cases hsl : d.suggs with
          | nil => exact absurd hsl hs
          | cons x xs => rfl
        have h2 : (c.suggs.any fun t => d.suggs.contains t) = false :=
          Bool.eq_false_iff.mpr hh
        simp only [hasSuggestionsWithoutHit, hsame, h1, h2, Bool.true_and, Bool.not_false,
          Bool.and_true, Bool.and_self]
  · rw [htp, hfp1]
    rintro ⟨h1, h2⟩
    simp only [hasSuggestionsWithHit, Bool.and_eq_true] at h1
    simp only [hasSuggestionsWithoutHit, Bool.and_eq_true, Bool.not_eq_true'] at h2
    rw [h1.2] at h2
    exact Bool.noConfusion h2.2
  · rw [htp, hfn1]
    rintro ⟨h1, h2⟩
    simp only [hasSuggestionsWithHit, Bool.and_eq_true, decide_eq_true_eq] at h1
    simp only [hasNoSuggestions, Bool.and_eq_true, List.isEmpty_iff] at h2
    simp [h2.2] at h1
  · rw [hfp1, hfn1]
    rintro ⟨h1, h2⟩
    simp only [hasSuggestionsWithoutHit, Bool.and_eq_true, Bool.not_eq_true'] at h1
    simp only [hasNoSuggestions, Bool.and_eq_true] at h2
    rw [h2.2] at h1
    exact Bool.noConfusion h1.1.2
  · rw [hfp2]
    intro hall
    rw [hall c hc] at hsame
    exact Bool.noConfusion hsame
  · rw [hfn2]
    intro hall
    rw [hall d hd] at hsame
    exact Bool.noConfusion hsame

/-! ### Helper lemmas for the markup-extractor claim -/

theorem sliceL_append_left (s u : List Char) (a b : Nat) (hab : a ≤ b)
    (hb : b ≤ s.length) : sliceL (s ++ u) a b = sliceL s a b := by
  unfold sliceL
  rw [List.drop_append_eq_append_drop, List.take_append_eq_append_take]
  have h1 : b - a ≤ (s.drop a).length := by
    rw [List.length_drop]
    omega
  have h2 : b - a - (s.drop a).length = 0 := by omega
  rw [h2, List.take_zero, List.append_nil]

theorem sliceL_middle (A t B : List Char) :
    sliceL (A ++ (t ++ B)) A.length (A.length + t.length) = t := by
  unfold sliceL
  rw [List.drop_append_eq_append_drop, List.drop_length, Nat.sub_self, List.drop_zero,
    List.nil_append, Nat.add_sub_cancel_left, List.take_append_eq_append_take,
    List.take_length, Nat.sub_self, List.take_zero, List.append_nil]

theorem goodIn_mono {ps : List (List Char)} (δ : List (List Char)) {e : EData}
    (h : GoodIn ps e) : GoodIn (ps ++ δ) e := by
  obtain ⟨h1, h2, h3⟩ := h
  refine ⟨h1, ?_, ?_⟩
  · rw [List.flatten_append, List.length_append]
    omega
  · rw [List.flatten_append, sliceL_append_left _ _ _ _ h1 h2]
    exact h3

theorem pushPart_parts (st : WState) (x : List Char) :
    (pushPart st x).parts = st.parts ++ (if x.isEmpty then [] else [x]) := by
  by_cases h : x.isEmpty <;> simp [pushPart, h]

theorem pushPart_errs (st : WState) (x : List Char) : (pushPart st x).errs = st.errs := by
  by_cases h : x.isEmpty <;> simp [pushPart, h]

theorem pushPart_flatten (st : WState) (x : List Char) :
    (pushPart st x).parts.flatten = st.parts.flatten ++ x := by
  by_cases h : x.isEmpty
  · simp [pushPart, h, List.isEmpty_iff.mp h]
  · simp [pushPart, h]

theorem wfL_cons {c : MTree} {rest : List MTree} (h : wfL (c :: rest) = true) :
    wfT c = true ∧ wfL rest = true := by
  simpa [wfL, Bool.and_eq_true] using h

theorem wfT_children {t : MTree} (h : wfT t = true) : wfL (childrenOf t) = true := by
  cases t with
  | node tag txt einfo cs tl =>
    simp only [wfT, Bool.and_eq_true] at h
    exact h.2

theorem extractChildren_correct_skip (st : WState) (cs : List MTree)
    (h : ∀ c ∈ cs, tagOf c = "correct") : extractChildren st cs = st := by
  induction cs generalizing st with
  | nil => rfl
  | cons c rest ih =>
    have hc := h c (List.mem_cons_self c rest)
    simp only [extractChildren]
    rw [if_neg (by simp [hc])]
    exact ih st fun c' hc' => h c' (List.mem_cons_of_mem _ hc')

theorem gecChildren_correct (cs : List MTree)
    (h : ∀ c ∈ cs, tagOf c = "correct") : gecChildren cs = [] := by
  induction cs with
  | nil => rfl
  | cons c rest ih =>
    cases c with
    | node ctag ctxt cinfo cchildren ctl =>
      have hc := h _ (List.mem_cons_self _ rest)
      simp only [tagOf] at hc
      simp only [gecChildren]
      rw [if_neg (by simp [hc])]
      exact ih fun c' hc' => h c' (List.mem_cons_of_mem _ hc')

theorem gec_nonempty_correct {tag : String} {txt einfo tl : List Char} {cs : List MTree}
    (h : ∀ c ∈ cs, tagOf c = "correct") (hne : cs ≠ []) :
    gec (.node tag txt einfo cs tl) = txt := by
  have hemp : cs.isEmpty = false := by
    cases cs with
    | nil => exact absurd rfl hne
    | cons a l => rfl
  simp [gec, gecChildren_correct cs h, hemp]

theorem countNonNested_correctTag {c : MTree} (hw : wfT c = true)
    (hc : tagOf c = "correct") : countNonNested c = 0 := by
  cases c with
  | node ctag ctxt cinfo cchildren ctl =>
    simp only [tagOf] at hc
    subst hc
    simp only [wfT, Bool.and_eq_true, if_pos rfl] at hw
    have : cchildren = [] := List.isEmpty_iff.mp hw.1
    subst this
    simp [countNonNested, countNonNestedL, strStartsWith]

theorem countNonNestedL_correct {cs : List MTree} (hw : wfL cs = true)
    (h : ∀ c ∈ cs, tagOf c = "correct") : countNonNestedL cs = 0 := by
  induction cs with
  | nil => rfl
  | cons c rest ih =>
    obtain ⟨hw1, hw2⟩ := wfL_cons hw
    simp only [countNonNestedL]
    rw [countNonNested_correctTag hw1 (h c (List.mem_cons_self c rest)),
      ih hw2 fun c' hc' => h c' (List.mem_cons_of_mem _ hc')]

theorem isNonNested_forall {t : MTree} (h : isNonNested t = true) :
    ∀ c ∈ childrenOf t, tagOf c = "correct" := by
  simpa [isNonNested, List.all_eq_true] using h

theorem countNonNestedL_cons (c : MTree) (rest : List MTree) :
    countNonNestedL (c :: rest) = countNonNested c + countNonNestedL rest := rfl

theorem countNonNested_node_count (tag : String) (txt einfo tl : List Char)
    (cs : List MTree) :
    countNonNested (.node tag txt einfo cs tl)
      = (if strStartsWith tag "error" ∧ (cs.all fun c => tagOf c = "correct") then 1 else 0)
        + countNonNestedL cs := rfl

mutual

/-- Invariant of `extract_error_info` on one node: parts only grow, the newly
collected errors are exactly the non-nested error descendants strictly below
the node (counted), every collected record is good for the grown parts, and
the returned record is good and present exactly when the node's tag is an
error tag (stated here for non-nested nodes, the only ones whose return value
is consumed). -/
theorem extractEI_spec (st : WState) (t : MTree) (hw : wfT t = true) :
    (∃ δ, (extractEI st t).1.parts = st.parts ++ δ)
    ∧ (∃ ne, (extractEI st t).1.errs = st.errs ++ ne
        ∧ (ne.filterMap id).length = countNonNestedL (childrenOf t)
        ∧ ∀ e ∈ ne.filterMap id, GoodIn (extractEI st t).1.parts e)
    ∧ (isNonNested t = true → strStartsWith (tagOf t) "error" = true →
        ∃ ed, (extractEI st t).2 = some ed ∧ GoodIn (extractEI st t).1.parts ed)
    ∧ (strStartsWith (tagOf t) "error" = false → (extractEI st t).2 = none) := by
  cases t with
  | node tag txt einfo children tl =>
    have hwc : wfL children = true := wfT_children hw
    obtain ⟨⟨δc, hδc⟩, ⟨ne, hne, hcount, hgood⟩⟩ :=
      extractChildren_spec (pushPart st txt) children hwc
    have hfst : (extractEI st (.node tag txt einfo children tl)).1
        = pushPart (extractChildren (pushPart st txt) children) tl := rfl
    refine ⟨?_, ?_, ?_, ?_⟩
    · refine ⟨(if txt.isEmpty then [] else [txt]) ++ δc ++ (if tl.isEmpty then [] else [tl]), ?_⟩
      rw [hfst, pushPart_parts, hδc, pushPart_parts]
      simp [List.append_assoc]
    · refine ⟨ne, ?_, ?_, ?_⟩
      · rw [hfst, pushPart_errs, hne, pushPart_errs]
      · simpa [childrenOf] using hcount
      · intro e he
        rw [hfst, pushPart_parts]
        exact goodIn_mono _ (hgood e he)
    · intro hnn herr
      have hall : ∀ c ∈ children, tagOf c = "correct" := isNonNested_forall hnn
      have hskip : extractChildren (pushPart st txt) children = pushPart st txt :=
        extractChildren_correct_skip _ _ hall
      simp only [tagOf] at herr
      refine ⟨⟨(if children.isEmpty then txt else gec (.node tag txt einfo children tl)),
          lenParts st.parts,
          lenParts (extractChildren (pushPart st txt) children).parts,
          tag,
          (match findCorrect children with | some cor => einfoOf cor | none => []),
          (children.filter fun c => tagOf c = "correct").map txtOf,
          tag⟩, ?_, ?_⟩
      · show (extractEI st (.node tag txt einfo children tl)).2 = some _
        simp only [extractEI]
        rw [if_pos herr]
      · have hes : (if children.isEmpty then txt
            else gec (.node tag txt einfo children tl)) = txt := by
          by_cases hce : children.isEmpty
          · simp [hce]
          · rw [if_neg hce]
            refine gec_nonempty_correct hall fun hnil => ?_
            rw [hnil] at hce
            exact hce rfl
        have hflat : (extractEI st (.node tag txt einfo children tl)).1.parts.flatten
            = st.parts.flatten ++ (txt ++ tl) := by
          rw [hfst, pushPart_flatten, hskip, pushPart_flatten, List.append_assoc]
        have hstop : lenParts (extractChildren (pushPart st txt) children).parts
            = st.parts.flatten.length + txt.length := by
          rw [hskip]
          unfold lenParts
          rw [pushPart_flatten, List.length_append]
        simp only [GoodIn]
        refine ⟨?_, ?_, ?_⟩
        · show lenParts st.parts ≤ lenParts (extractChildren (pushPart st txt) children).parts
          rw [hstop]
          unfold lenParts
          omega
        · show lenParts (extractChildren (pushPart st txt) children).parts
            ≤ (extractEI st (.node tag txt einfo children tl)).1.parts.flatten.length
          rw [hstop, hflat, List.length_append, List.length_append]
          omega
        · show sliceL (extractEI st (.node tag txt einfo children tl)).1.parts.flatten
              (lenParts st.parts) (lenParts (extractChildren (pushPart st txt) children).parts)
            = (if children.isEmpty then txt else gec (.node tag txt einfo children tl))
          rw [hflat, hstop, hes]
          unfold lenParts
          exact sliceL_middle st.parts.flatten txt tl
    · intro herr
      simp only [tagOf] at herr
      show (extractEI st (.node tag txt einfo children tl)).2 = none
      simp only [extractEI]
      rw [if_neg (by simp [herr])]

/-- Invariant of the child walk of `extract_error_info`. -/
theorem extractChildren_spec (st : WState) (cs : List MTree) (hw : wfL cs = true) :
    (∃ δ, (extractChildren st cs).parts = st.parts ++ δ)
    ∧ (∃ ne, (extractChildren st cs).errs = st.errs ++ ne
        ∧ (ne.filterMap id).length = countNonNestedL cs
        ∧ ∀ e ∈ ne.filterMap id, GoodIn (extractChildren st cs).parts e) := by
  cases cs with
  | nil =>
    exact ⟨⟨[], by simp [extractChildren]⟩,
      ⟨[], by simp [extractChildren], by simp [countNonNestedL], by simp⟩⟩
  | cons c rest =>
    obtain ⟨hw1, hw2⟩ := wfL_cons hw
    by_cases hcor : tagOf c = "correct"
    · have hstep : extractChildren st (c :: rest) = extractChildren st rest := by
        simp only [extractChildren]
        rw [if_neg (by simp [hcor])]
      obtain ⟨⟨δ2, hp2⟩, ⟨ne2, he2, hc2, hg2⟩⟩ := extractChildren_spec st rest hw2
      rw [hstep]
      refine ⟨⟨δ2, hp2⟩, ⟨ne2, he2, ?_, hg2⟩⟩
      rw [hc2, countNonNestedL_cons, countNonNested_correctTag hw1 hcor]
      omega
    · by_cases hnn : isNonNested c = true
      · have hstep : extractChildren st (c :: rest)
            = extractChildren
                ⟨(extractEI st c).1.parts, (extractEI st c).1.errs ++ [(extractEI st c).2]⟩
                rest := by
          simp only [extractChildren]
          rw [if_pos hcor, if_pos hnn]
        obtain ⟨⟨δ1, hp1⟩, ⟨ne1, he1, hc1, hg1⟩, h3, h4⟩ := extractEI_spec st c hw1
        have hall : ∀ c' ∈ childrenOf c, tagOf c' = "correct" := isNonNested_forall hnn
        have hc10 : (ne1.filterMap id).length = 0 := by
          rw [hc1]
          exact countNonNestedL_correct (wfT_children hw1) hall
        have hcnt0 : countNonNestedL (childrenOf c) = 0 :=
          countNonNestedL_correct (wfT_children hw1) hall
        obtain ⟨⟨δ2, hp2⟩, ⟨ne2, he2, hcnt2, hg2⟩⟩ :=
          extractChildren_spec
            ⟨(extractEI st c).1.parts, (extractEI st c).1.errs ++ [(extractEI st c).2]⟩
            rest hw2
        rw [hstep]
        refine ⟨⟨δ1 ++ δ2, ?_⟩, ?_⟩
        · rw [hp2]
          show (extractEI st c).1.parts ++ δ2 = _
          rw [hp1, List.append_assoc]
        · refine ⟨ne1 ++ [(extractEI st c).2] ++ ne2, ?_, ?_, ?_⟩
          · rw [he2]
            show (extractEI st c).1.errs ++ [(extractEI st c).2] ++ ne2 = _
            rw [he1]
            simp [List.append_assoc]
          · rw [List.filterMap_append, List.filterMap_append, List.length_append,
              List.length_append, hc10, hcnt2, countNonNestedL_cons]
            have hcc : countNonNested c
                = (if strStartsWith (tagOf c) "error"
                      ∧ ((childrenOf c).all fun x => tagOf x = "correct") then 1 else 0)
                  + countNonNestedL (childrenOf c) := by
              cases c with
              | node ctag ctxt cinfo cchildren ctl => rfl
            rw [hcc, hcnt0]
            have hallcs : ((childrenOf c).all fun x => tagOf x = "correct") = true := by
              simpa [isNonNested] using hnn
            by_cases herr : strStartsWith (tagOf c) "error" = true
            · obtain ⟨ed, hed, hged⟩ := h3 hnn herr
              rw [hed]
              simp [herr, hallcs]
            · rw [h4 (by simpa using herr)]
              simp [herr]
          · intro e he
            rw [List.filterMap_append, List.filterMap_append] at he
            rcases List.mem_append.mp he with he' | he'
            · rw [hp2]
              rcases List.mem_append.mp he' with h1 | h1
              · exact goodIn_mono _ (hg1 e h1)
              · by_cases herr : strStartsWith (tagOf c) "error" = true
                · obtain ⟨ed, hed, hged⟩ := h3 hnn herr
                  rw [hed] at h1
                  have : e = ed := by simpa using h1
                  rw [this]
                  exact goodIn_mono _ hged
                · rw [h4 (by simpa using herr)] at h1
                  simp at h1
            · exact hg2 e he'
      · have hstep : extractChildren st (c :: rest)
            = extractChildren (extractEI st c).1 rest := by
          simp only [extractChildren]
          rw [if_pos hcor, if_neg hnn]
        obtain ⟨⟨δ1, hp1⟩, ⟨ne1, he1, hc1, hg1⟩, h3, h4⟩ := extractEI_spec st c hw1
        obtain ⟨⟨δ2, hp2⟩, ⟨ne2, he2, hcnt2, hg2⟩⟩ :=
          extractChildren_spec (extractEI st c).1 rest hw2
        rw [hstep]
        refine ⟨⟨δ1 ++ δ2, ?_⟩, ?_⟩
        · rw [hp2, hp1, List.append_assoc]
        · refine ⟨ne1 ++ ne2, ?_, ?_, ?_⟩
          · rw [he2, he1, List.append_assoc]
          · rw [List.filterMap_append, List.length_append, hc1, hcnt2, countNonNestedL_cons]
            have hcc : countNonNested c
                = (if strStartsWith (tagOf c) "error"
                      ∧ ((childrenOf c).all fun x => tagOf x = "correct") then 1 else 0)
                  + countNonNestedL (childrenOf c) := by
              cases c with
              | node ctag ctxt cinfo cchildren ctl => rfl
            have hallcs : ((childrenOf c).all fun x => tagOf x = "correct") = false := by
              have := Bool.eq_false_iff.mpr hnn
              simpa [isNonNested] using this
            rw [hcc, hallcs]
            simp
          · intro e he
            rw [List.filterMap_append] at he
            rcases List.mem_append.mp he with h1 | h1
            · rw [hp2]
              exact goodIn_mono _ (hg1 e h1)
            · exact hg2 e h1

end

theorem sliceL_replaceNL (s : List Char) (a b : Nat) :
    sliceL (replaceNL s) a b = replaceNL (sliceL s a b) := by
  unfold sliceL replaceNL
  rw [← List.map_drop, ← List.map_take]

/-- C5 counterexample.  Three markup trees on which the claim as stated
fails: (1) an error whose text contains a newline — the span's `text` keeps
the newline while the flattened sentence has it replaced by a space, so the
sentence restricted to `[start, end)` differs from the span's text; (2) a
tree whose root is itself a non-nested error annotation — the extractor
discards the root's record, producing 0 spans instead of 1; (3) a non-nested
error annotation sitting inside a "correct" element — never visited,
0 spans instead of 1. -/
theorem markup_extraction_counterexamples :
    ((paragraphToTestdata
        (.node "p" [] [] [.node "errorort" ['a', '\n', 'b'] []
          [.node "correct" ['y'] [] [] []] []] [])).1 = ['a', ' ', 'b']
      ∧ (paragraphToTestdata
          (.node "p" [] [] [.node "errorort" ['a', '\n', 'b'] []
            [.node "correct" ['y'] [] [] []] []] [])).2 =
          [⟨['a', '\n', 'b'], 0, 3, "errorort", [], [['y']], "errorort"⟩]
      ∧ sliceL ['a', ' ', 'b'] 0 3 ≠ ['a', '\n', 'b'])
    ∧ countNonNested (.node "errorort" ['w'] [] [.node "correct" ['v'] [] [] []] []) = 1
    ∧ (paragraphToTestdata
        (.node "errorort" ['w'] [] [.node "correct" ['v'] [] [] []] [])).2.length = 0
    ∧ countNonNested
        (.node "p" [] [] [.node "correct" [] [] [.node "errorort" ['z'] [] [] []] []] []) = 1
    ∧ (paragraphToTestdata
        (.node "p" [] [] [.node "correct" [] [] [.node "errorort" ['z'] [] [] []] []] [])).2.length
      = 0 := by
  refine ⟨⟨?_, ?_, by decide⟩, by decide, ?_, by decide, ?_⟩ <;> decide

/-- C5 as amended.  For every markup tree whose root is not itself an error
node and in which "correct" elements carry no element children, the extractor
produces exactly as many spans as there are non-nested error annotations in
the tree, and each produced span addresses the flattened sentence correctly:
the sentence restricted to `[start, end)` equals the span's text with
newlines replaced by spaces (flattening replaces newlines by spaces in the
sentence but not in the collected `text`). -/
theorem markup_extraction_round_trip (t : MTree)
    (hroot : strStartsWith (tagOf t) "error" = false) (hw : wfT t = true) :
    ((paragraphToTestdata t).2).length = countNonNested t
    ∧ ∀ e ∈ (paragraphToTestdata t).2,
        e.start ≤ e.stop ∧ e.stop ≤ (paragraphToTestdata t).1.length
        ∧ sliceL (paragraphToTestdata t).1 e.start e.stop = replaceNL e.error_string := by
  obtain ⟨⟨δ, hp⟩, ⟨ne, hne, hcount, hgood⟩, _, _⟩ := extractEI_spec ⟨[], []⟩ t hw
  have herrs : (paragraphToTestdata t).2 = ne.filterMap id := by
    show ((extractEI ⟨[], []⟩ t).1.errs).filterMap id = ne.filterMap id
    rw [hne]
    rfl
  have hsent : (paragraphToTestdata t).1 = replaceNL (extractEI ⟨[], []⟩ t).1.parts.flatten :=
    rfl
  constructor
  · rw [herrs, hcount]
    cases t with
    | node tag txt einfo children tl =>
      simp only [tagOf] at hroot
      rw [countNonNested_node_count]
      rw [if_neg (by simp [hroot])]
      simp [childrenOf]
  · intro e he
    rw [herrs] at he
    obtain ⟨h1, h2, h3⟩ := hgood e he
    refine ⟨h1, ?_, ?_⟩
    · rw [hsent]
      unfold replaceNL
      rw [List.length_map]
      exact h2
    · rw [hsent, sliceL_replaceNL, h3]

/-- Witness for C5's amended theorem at the spec's example markup. -/
theorem markup_extraction_round_trip_witness :
    ((paragraphToTestdata exampleTree).2).length = countNonNested exampleTree
    ∧ ∀ e ∈ (paragraphToTestdata exampleTree).2,
        e.start ≤ e.stop ∧ e.stop ≤ (paragraphToTestdata exampleTree).1.length
        ∧ sliceL (paragraphToTestdata exampleTree).1 e.start e.stop
          = replaceNL e.error_string :=
  markup_extraction_round_trip exampleTree (by decide) (by decide)

/-- Parsing the fallback object literal "{}" succeeds with the empty
object. -/
theorem jsonLoads_emptyObjLit : jsonLoads [braceOpen, braceClose] = some (.obj []) := rfl

/-- C7.  Whenever the Format B output cannot be parsed — no opening brace
survives ANSI stripping, the braces never balance, or the extracted substring
is not valid JSON — the normalizer yields a response whose observable `text`
is empty and whose error list is empty, instead of raising. -/
theorem runtime_parse_fail_soft (out : List Char)
    (h : braceOpen ∉ stripAnsi out
      ∨ takeBalanced ((stripAnsi out).dropWhile notBrace) 0 [] = none
      ∨ jsonLoads (extractJson out) = none) :
    responseText (parseRuntimeResponse out) = []
    ∧ responseErrors (parseRuntimeResponse out) = [] := by
  have hlit : responseText (.obj ([] : List (List Char × JVal))) = []
      ∧ responseErrors (.obj ([] : List (List Char × JVal))) = [] := ⟨rfl, rfl⟩
  rcases h with h | h | h
  · have hd : (stripAnsi out).dropWhile notBrace = [] := by
      rw [List.dropWhile_eq_nil_iff]
      intro x hx
      simp only [notBrace, ne_eq, decide_eq_true_eq]
      exact fun hxx => h (hxx ▸ hx)
    have he : extractJson out = [braceOpen, braceClose] := by
      simp only [extractJson]
      rw [hd]
      rfl
    rw [parseRuntimeResponse, he, jsonLoads_emptyObjLit]
    exact hlit
  · have he : extractJson out = [braceOpen, braceClose] := by
      by_cases hemp : ((stripAnsi out).dropWhile notBrace).isEmpty = true
      · simp only [extractJson]
        rw [if_pos hemp]
      · simp only [extractJson]
        rw [if_neg hemp, h]
    rw [parseRuntimeResponse, he, jsonLoads_emptyObjLit]
    exact hlit
  · rw [parseRuntimeResponse, h]
    exact ⟨rfl, rfl⟩

/-- Witness for C7 at the repository's own test input "No JSON here" (no
opening brace at all). -/
theorem runtime_parse_fail_soft_witness :
    responseText (parseRuntimeResponse "No JSON here".toList) = []
    ∧ responseErrors (parseRuntimeResponse "No JSON here".toList) = [] :=
  runtime_parse_fail_soft "No JSON here".toList (Or.inl (by decide))

/-- Witness for C6's amended theorem at a concrete matching pair. -/
theorem classification_pair_partition_witness :
    (hasSameRangeAndError wExp wRep = true →
      (((wExp, wRep) ∈ hasTruePositives [wExp] [wRep])
          ↔ hasSuggestionsWithHit wExp wRep = true)
      ∧ (((wExp, wRep) ∈ hasFalsePositives1 [wExp] [wRep])
          ↔ hasSuggestionsWithoutHit wExp wRep = true)
      ∧ (((wExp, wRep) ∈ hasFalseNegatives1 [wExp] [wRep])
          ↔ hasNoSuggestions wExp wRep = true)
      ∧ ((wExp, wRep) ∈ hasTruePositives [wExp] [wRep]
          ∨ (wExp, wRep) ∈ hasFalsePositives1 [wExp] [wRep]
          ∨ (wExp, wRep) ∈ hasFalseNegatives1 [wExp] [wRep])
      ∧ ¬((wExp, wRep) ∈ hasTruePositives [wExp] [wRep]
          ∧ (wExp, wRep) ∈ hasFalsePositives1 [wExp] [wRep])
      ∧ ¬((wExp, wRep) ∈ hasTruePositives [wExp] [wRep]
          ∧ (wExp, wRep) ∈ hasFalseNegatives1 [wExp] [wRep])
      ∧ ¬((wExp, wRep) ∈ hasFalsePositives1 [wExp] [wRep]
          ∧ (wExp, wRep) ∈ hasFalseNegatives1 [wExp] [wRep])
      ∧ wRep ∉ hasFalsePositives2 [wExp] [wRep]
      ∧ wExp ∉ hasFalseNegatives2 [wExp] [wRep])
    ∧ (wRep ∈ hasFalsePositives2 [wExp] [wRep]
        ↔ ∀ c' ∈ [wExp], hasSameRangeAndError c' wRep = false)
    ∧ (wExp ∈ hasFalseNegatives2 [wExp] [wRep]
        ↔ ∀ d' ∈ [wRep], hasSameRangeAndError wExp d' = false) :=
  classification_pair_partition [wExp] [wRep] wExp wRep
    (by simp) (by simp)

end GLT
